import Mathlib

/-!
Verification of the leptos_chart rendering components (`LineChart` in
`src/leptos_chart/src/linechart/components.rs` and `BarChartGroup` in
`src/leptos_chart/src/barchart_group/components.rs`) against the
natural-language specification.

The two component files are thin renderers over the `theta_chart` engine,
which is not part of the shown sources; the engine pieces they consume
(`Series`, `to_stick`, `scale`, `scale_index`, `get_count`, hue rotation,
the error-recording constructors) are modelled from the spec and marked as
such.  `f64` arithmetic is embedded as exact rational arithmetic `ℚ`;
Rust's `{:.0}` float formatting is embedded as round-half-to-even.
Fallible rendering (Rust index-out-of-bounds panics) is embedded in
`Except`.
-/

/-- Modelled from the spec: `Series` (spec section 3) from the missing
`theta_chart::series` module — a variant over numeric data and
label/categorical data. -/
inductive Series where
  | Numeric : List ℚ → Series
  | Label : List String → Series
deriving DecidableEq, Repr

/-- Modelled from the spec: `Stick` (spec section 3) — a resolved
(label, value) pair; the label is present only for label-typed series. -/
structure Stick where
  label : Option String
  value : ℚ
deriving DecidableEq, Repr

/-- Accumulator loop for `firstSeen`: keeps the first occurrence of each
string, in order. -/
def firstSeenAux : List String → List String → List String
  | acc, [] => acc.reverse
  | acc, s :: rest => if s ∈ acc then firstSeenAux acc rest else firstSeenAux (s :: acc) rest

/-- Modelled from the spec: the categorical scale domain is the distinct
labels in first-seen order (spec section 3, Scale). -/
def firstSeen (l : List String) : List String := firstSeenAux [] l

/-- Modelled from the spec: `Series::to_stick` (spec section 4.1) — one
stick per entry in the original order; for a numeric series the label is
absent; for a label series the value is the rank of the label's first
occurrence. -/
def Series.to_stick : Series → List Stick
  | .Numeric l => l.map (fun v => { label := none, value := v })
  | .Label l => l.map (fun s => { label := some s, value := ((firstSeen l).findIdx (fun t => t == s) : ℚ) })

/-- Length of a series, measured through its stick sequence. -/
def Series.len (s : Series) : ℕ := s.to_stick.length

/-- The numeric plotting values carried by a series' sticks. -/
def Series.values (s : Series) : List ℚ := s.to_stick.map (fun st => st.value)

/-- The labels of a label-typed series (empty for a numeric series). -/
def Series.labels : Series → List String
  | .Numeric _ => []
  | .Label l => l

/-- Mirror of the `match xseries[0] { Series::Label(_) => .. }` variant test
in barchart_group/components.rs lines 115-119. -/
def Series.is_label : Series → Bool
  | .Label _ => true
  | _ => false

/-- Modelled from the spec: the numeric scale mapping (spec section 4.2):
`(value - min) / (max - min)` clamped to `[0,1]`, and `1/2` for a
degenerate domain with `min = max`. -/
def numericScale (mn mx v : ℚ) : ℚ :=
  if mn = mx then 1/2 else max 0 (min 1 ((v - mn) / (mx - mn)))

/-- Minimum of a list of rationals (0 for the empty list, which no claim
exercises). -/
def listMin : List ℚ → ℚ
  | [] => 0
  | v :: rest => rest.foldl min v

/-- Maximum of a list of rationals (0 for the empty list). -/
def listMax : List ℚ → ℚ
  | [] => 0
  | v :: rest => rest.foldl max v

/-- Modelled from the spec: the per-series numeric scale of a `Cartesian`
axis, fitted to that series' own data (spec section 4.2). -/
def Series.scale (s : Series) (v : ℚ) : ℚ :=
  numericScale (listMin s.values) (listMax s.values) v

/-- Joined label domain of a group axis, in first-seen order (modelled from
the spec: group scale over the group's series, spec sections 3 and 4.5). -/
def groupLabels (ss : List Series) : List String :=
  firstSeen ((ss.map Series.labels).flatten)

/-- Modelled from the spec: the group numeric scale, fitted to all values
of the group's series on that axis. -/
def groupNumericScale (ss : List Series) (v : ℚ) : ℚ :=
  numericScale (listMin ((ss.map Series.values).flatten)) (listMax ((ss.map Series.values).flatten)) v

/-- Modelled from the spec: `Scale::scale_index` (spec section 4.2) — the
0-based first-seen rank of a label; an unknown or absent label is an error,
never a silent default. -/
def scale_index (dom : List String) (lab : Option String) : Option ℕ :=
  match lab with
  | none => none
  | some s => if s ∈ dom then some (dom.findIdx (fun t => t == s)) else none

/-- Modelled from the spec: `Color` (spec sections 3 and 4.6) from the
missing `theta_chart::color` module, represented by the
hue/saturation/lightness triple that the hue-rotation contract speaks
about. -/
structure Color where
  hue : ℚ
  saturation : ℚ
  lightness : ℚ
deriving DecidableEq, Repr

/-- Modelled from the spec: `Color::default()`, the default base color. -/
def Color.default : Color := { hue := 0, saturation := 0, lightness := 0 }

/-- Rational remainder with respect to a positive modulus, used for the
degree arithmetic of hue rotation. -/
def qmod (a b : ℚ) : ℚ := a - b * ⌊a / b⌋

/-- Modelled from the spec: `Color::shift_hue_degrees_index` (spec section
4.6) — rotates hue by `(shift_degrees × index) mod 360`, preserving
saturation and lightness. -/
def Color.shift_hue_degrees_index (c : Color) (d : ℚ) (i : ℕ) : Color :=
  { c with hue := qmod (c.hue + d * (i : ℚ)) 360 }

/-- The plot-area vector of the chart view: the embedding consumes the
viewport only through `get_rec_chart().get_vector()`, as the two component
files do. -/
structure CView where
  vx : ℚ
  vy : ℚ
deriving DecidableEq, Repr

/-- Modelled from the spec: `Cartesian` (spec sections 3 and 4.4) — one
x-series, one y-series, a view and the recorded error string (empty when
no error). -/
structure Cartesian where
  ax : Series
  ay : Series
  view : CView
  error : String
deriving DecidableEq, Repr

/-- Modelled from the spec: `Cartesian::new(..).set_view(..)` records an
error state exactly when the two series lengths differ (spec section 4.4),
and the empty string otherwise. -/
def mkCartesian (x y : Series) (v : CView) : Cartesian :=
  { ax := x, ay := y, view := v,
    error := if x.len = y.len then "" else "the x series and the y series have different lengths" }

/-- Modelled from the spec: `CartesianGroup` (spec sections 3 and 4.5) —
an ordered sequence of (x-series, y-series) pairs, a shared view, and the
recorded error string. -/
structure CartesianGroup where
  data : List (Series × Series)
  view : CView
  error : String
deriving DecidableEq, Repr

/-- Modelled from the spec: building a group through
`CartesianGroup::new().set_view(..).add_data(..)` records a length-mismatch
error when any pair's series lengths differ (spec section 7a). -/
def mkCartesianGroup (data : List (Series × Series)) (v : CView) : CartesianGroup :=
  { data := data, view := v,
    error := if data.all (fun p => p.1.len == p.2.len) then ""
             else "a pair of the group has series of different lengths" }

/-- The ways the shown rendering code can panic or hit the engine's
error contract: a Rust index-out-of-bounds panic (`xseries[0]`,
`ystick[indexi]`, ...) or an unknown-label lookup. -/
inductive RenderPanic where
  | indexOutOfBounds
  | unknownLabel
deriving DecidableEq, Repr

/-- An emitted SVG `<line>` bar with its stroke color (stroke width is a
style detail computed by the missing engine scale and is not modelled). -/
structure SvgLine where
  x1 : ℚ
  y1 : ℚ
  x2 : ℚ
  y2 : ℚ
  stroke : Color
deriving DecidableEq, Repr

/-- An emitted SVG `<circle>` marker center. -/
structure SvgCircle where
  cx : ℚ
  cy : ℚ
deriving DecidableEq, Repr

/-- Rust's `{:.0}` formatting of a finite float: round to the nearest
integer, ties to even. -/
def roundHalfEven (q : ℚ) : ℤ :=
  let f := ⌊q⌋
  let r := q - (f : ℚ)
  if r < 1/2 then f
  else if 1/2 < r then f + 1
  else if f % 2 = 0 then f else f + 1

/-- Componentwise `{:.0}` rounding of a plot point, as the path vertex
formatting at linechart/components.rs line 155 does. -/
def roundPoint (p : ℚ × ℚ) : ℤ × ℤ := (roundHalfEven p.1, roundHalfEven p.2)

/-- The output of one `LineChart` render: circle markers, the list of
emitted paths (each a vertex list of whole-pixel coordinates), the stroke
color of the path, and the message forwarded to the logging channel
(empty when nothing is logged). -/
structure LineChartOut where
  circles : List SvgCircle
  paths : List (List (ℤ × ℤ))
  pathStroke : Color
  logged : String
deriving DecidableEq, Repr

/-- The grouped-bar coordinate formula of barchart_group/components.rs
lines 186-188 (and its y-mirror at lines 225-227):
`(r / len_group) * extent + (position * index + position / 2 + 0.05) * interval`
with `position = 0.9 / G` and `interval = extent / len_group`. -/
def bandCenter (G L : ℕ) (extent : ℚ) (r i : ℕ) : ℚ :=
  ((r : ℚ) / (L : ℚ)) * extent +
    ((9/10 / (G : ℚ)) * (i : ℚ) + (9/10 / (G : ℚ)) / 2 + 1/20) * (extent / (L : ℚ))

/-- The half-width of one grouped band: half of `(0.9 / G) · (extent / L)`. -/
def bandHalfWidth (G L : ℕ) (extent : ℚ) : ℚ :=
  (9/10 / (G : ℚ)) * (extent / (L : ℚ)) / 2

/-- Inner loop of the vertical branch of `BarChartGroup`
(barchart_group/components.rs lines 181-197): walk the x-sticks of series
number `index`, look up each label's rank, index into the matching
y-sticks (a Rust panic when out of bounds), and emit one vertical bar per
stick. -/
def barLinesV (dom : List String) (sY : ℚ → ℚ) (vx vy : ℚ) (G L index : ℕ) (col : Color)
    (ystick : List Stick) : ℕ → List Stick → Except RenderPanic (List SvgLine)
  | _, [] => Except.ok []
  | indexi, st :: rest =>
    match scale_index dom st.label with
    | none => Except.error RenderPanic.unknownLabel
    | some r =>
      match ystick[indexi]? with
      | none => Except.error RenderPanic.indexOutOfBounds
      | some yst =>
        match barLinesV dom sY vx vy G L index col ystick (indexi + 1) rest with
        | Except.error e => Except.error e
        | Except.ok rest' =>
          Except.ok ({ x1 := bandCenter G L vx r index, y1 := 0,
                       x2 := bandCenter G L vx r index, y2 := sY yst.value * vy,
                       stroke := col } :: rest')

/-- Outer loop of the vertical branch of `BarChartGroup`
(barchart_group/components.rs lines 167-199): one hue-rotated color and
one bar list per x-series, pairing it with the y-series of the same
index. -/
def barGroupV (dom : List String) (sY : ℚ → ℚ) (vx vy : ℚ) (G L : ℕ) (base : Color) (shift : ℚ)
    (yseries : List Series) : ℕ → List Series → Except RenderPanic (List (List SvgLine))
  | _, [] => Except.ok []
  | index, sx :: rest =>
    match yseries[index]? with
    | none => Except.error RenderPanic.indexOutOfBounds
    | some sy =>
      match barLinesV dom sY vx vy G L index (base.shift_hue_degrees_index shift index)
          sy.to_stick 0 sx.to_stick with
      | Except.error e => Except.error e
      | Except.ok lines =>
        match barGroupV dom sY vx vy G L base shift yseries (index + 1) rest with
        | Except.error e => Except.error e
        | Except.ok rest' => Except.ok (lines :: rest')

/-- Inner loop of the horizontal branch of `BarChartGroup`
(barchart_group/components.rs lines 218-240): walk the y-sticks, index
into the matching x-sticks, and emit one horizontal bar per stick. -/
def barLinesH (dom : List String) (sX : ℚ → ℚ) (vx vy : ℚ) (G L index : ℕ) (col : Color)
    (xstick : List Stick) : ℕ → List Stick → Except RenderPanic (List SvgLine)
  | _, [] => Except.ok []
  | indexi, st :: rest =>
    match scale_index dom st.label with
    | none => Except.error RenderPanic.unknownLabel
    | some r =>
      match xstick[indexi]? with
      | none => Except.error RenderPanic.indexOutOfBounds
      | some xst =>
        match barLinesH dom sX vx vy G L index col xstick (indexi + 1) rest with
        | Except.error e => Except.error e
        | Except.ok rest' =>
          Except.ok ({ x1 := 0, y1 := bandCenter G L vy r index,
                       x2 := sX xst.value * vx, y2 := bandCenter G L vy r index,
                       stroke := col } :: rest')

/-- Outer loop of the horizontal branch of `BarChartGroup`
(barchart_group/components.rs lines 204-242). -/
def barGroupH (dom : List String) (sX : ℚ → ℚ) (vx vy : ℚ) (G L : ℕ) (base : Color) (shift : ℚ)
    (xseries : List Series) : ℕ → List Series → Except RenderPanic (List (List SvgLine))
  | _, [] => Except.ok []
  | index, sy :: rest =>
    match xseries[index]? with
    | none => Except.error RenderPanic.indexOutOfBounds
    | some sx =>
      match barLinesH dom sX vx vy G L index (base.shift_hue_degrees_index shift index)
          sx.to_stick 0 sy.to_stick with
      | Except.error e => Except.error e
      | Except.ok lines =>
        match barGroupH dom sX vx vy G L base shift xseries (index + 1) rest with
        | Except.error e => Except.error e
        | Except.ok rest' => Except.ok (lines :: rest')

/-- The `BarChartGroup` component body (barchart_group/components.rs lines
70-250): resolve the optional props, split the group data into x- and
y-series, test the variant of the first pair's x-series — a Rust
index-out-of-bounds panic when the group is empty — and run the vertical
or the horizontal layout.  The result is the nested bar list the
component collects; the chart's `error` field is never consulted. -/
def renderBarChartGroup (chart : CartesianGroup) (c : Option Color) (s : Option ℚ) :
    Except RenderPanic (List (List SvgLine)) :=
  let color := c.getD Color.default
  let shift := s.getD 70
  let vx := chart.view.vx
  let vy := chart.view.vy
  let xseries := chart.data.map Prod.fst
  let yseries := chart.data.map Prod.snd
  match xseries with
  | [] => Except.error RenderPanic.indexOutOfBounds
  | x0 :: _ =>
    bif x0.is_label then
      barGroupV (groupLabels xseries) (groupNumericScale yseries) vx vy
        xseries.length (groupLabels xseries).length color shift yseries 0 xseries
    else
      barGroupH (groupLabels yseries) (groupNumericScale xseries) vx vy
        yseries.length (groupLabels yseries).length color shift xseries 0 yseries

/-- The plot-point loop of `LineChart` (linechart/components.rs lines
145-167): for each x-stick, index into the y-sticks (a Rust panic when out
of bounds) and produce the scaled plot point. -/
def lcPoints (xsc ysc : ℚ → ℚ) (vx vy : ℚ) (ys : List Stick) :
    ℕ → List Stick → Except RenderPanic (List (ℚ × ℚ))
  | _, [] => Except.ok []
  | index, d :: rest =>
    match ys[index]? with
    | none => Except.error RenderPanic.indexOutOfBounds
    | some yst =>
      match lcPoints xsc ysc vx vy ys (index + 1) rest with
      | Except.error e => Except.error e
      | Except.ok rest' => Except.ok ((xsc d.value * vx, ysc yst.value * vy) :: rest')

/-- The `LineChart` component body (linechart/components.rs lines 63-186):
when `get_error()` is empty, emit one circle per plot point and exactly one
path whose vertices are the points formatted with `{:.0}`; otherwise emit
an empty canvas and forward the error to the logging channel. -/
def renderLineChart (chart : Cartesian) (c : Option Color) : Except RenderPanic LineChartOut :=
  let color := c.getD Color.default
  if chart.error = "" then
    match lcPoints chart.ax.scale chart.ay.scale chart.view.vx chart.view.vy
        chart.ay.to_stick 0 chart.ax.to_stick with
    | Except.error e => Except.error e
    | Except.ok pts =>
      Except.ok { circles := pts.map (fun p => { cx := p.1, cy := p.2 }),
                  paths := [pts.map roundPoint],
                  pathStroke := color, logged := "" }
  else
    Except.ok { circles := [], paths := [], pathStroke := color, logged := chart.error }

instance {ε α : Type} [DecidableEq ε] [DecidableEq α] : DecidableEq (Except ε α) := fun a b =>
  match a, b with
  | Except.ok x, Except.ok y =>
    if h : x = y then isTrue (by rw [h]) else isFalse (by intro hc; cases hc; exact h rfl)
  | Except.error x, Except.error y =>
    if h : x = y then isTrue (by rw [h]) else isFalse (by intro hc; cases hc; exact h rfl)
  | Except.ok _, Except.error _ => isFalse (by intro hc; cases hc)
  | Except.error _, Except.ok _ => isFalse (by intro hc; cases hc)

/-! ## Helper lemmas -/

/-- A value already inside `[0, 360)` is its own remainder. -/
theorem qmod_eq_self {a : ℚ} (h0 : 0 ≤ a) (h1 : a < 360) : qmod a 360 = a := by
  have hf : ⌊a / 360⌋ = 0 := by
    rw [Int.floor_eq_zero_iff]
    constructor
    · positivity
    · rw [div_lt_one (by norm_num)]; simpa using h1
  simp [qmod, hf]

/-- Adding an integer multiple of 360 does not change the remainder. -/
theorem qmod_add_int_mul (a : ℚ) (k : ℤ) : qmod (a + 360 * (k : ℚ)) 360 = qmod a 360 := by
  have hdiv : (a + 360 * (k : ℚ)) / 360 = a / 360 + (k : ℚ) := by
    field_simp
    ring
  rw [qmod, qmod, hdiv, Int.floor_add_int]
  push_cast
  ring

/-- The stick values of a numeric series are its raw entries. -/
theorem values_numeric (l : List ℚ) : (Series.Numeric l).values = l := by
  simp only [Series.values, Series.to_stick, List.map_map]
  exact List.map_id l

/-- Every bar emitted by the vertical inner loop carries the given stroke
color, is a vertical segment, and starts on the x-axis. -/
theorem barLinesV_ok (dom : List String) (sY : ℚ → ℚ) (vx vy : ℚ) (G L index : ℕ) (col : Color)
    (ystick : List Stick) :
    ∀ (xs : List Stick) (k : ℕ) (lines : List SvgLine),
      barLinesV dom sY vx vy G L index col ystick k xs = Except.ok lines →
      ∀ l ∈ lines, l.stroke = col ∧ l.x1 = l.x2 ∧ l.y1 = 0 := by
  intro xs
  induction xs with
  | nil =>
    intro k lines h l hl
    simp only [barLinesV] at h
    cases h
    simp at hl
  | cons st rest ih =>
    intro k lines h l hl
    simp only [barLinesV] at h
    cases hsi : scale_index dom st.label with
    | none => rw [hsi] at h; exact Except.noConfusion h
    | some r =>
      rw [hsi] at h
      cases hys : ystick[k]? with
      | none => rw [hys] at h; exact Except.noConfusion h
      | some yst =>
        rw [hys] at h
        cases hrec : barLinesV dom sY vx vy G L index col ystick (k + 1) rest with
        | error e => rw [hrec] at h; exact Except.noConfusion h
        | ok rest' =>
          rw [hrec] at h
          cases h
          cases hl with
          | head => exact ⟨rfl, rfl, rfl⟩
          | tail _ hmem => exact ih (k + 1) rest' hrec l hmem

/-- Every bar emitted by the horizontal inner loop carries the given stroke
color, is a horizontal segment, and starts on the y-axis. -/
theorem barLinesH_ok (dom : List String) (sX : ℚ → ℚ) (vx vy : ℚ) (G L index : ℕ) (col : Color)
    (xstick : List Stick) :
    ∀ (ys : List Stick) (k : ℕ) (lines : List SvgLine),
      barLinesH dom sX vx vy G L index col xstick k ys = Except.ok lines →
      ∀ l ∈ lines, l.stroke = col ∧ l.y1 = l.y2 ∧ l.x1 = 0 := by
  intro ys
  induction ys with
  | nil =>
    intro k lines h l hl
    simp only [barLinesH] at h
    cases h
    simp at hl
  | cons st rest ih =>
    intro k lines h l hl
    simp only [barLinesH] at h
    cases hsi : scale_index dom st.label with
    | none => rw [hsi] at h; exact Except.noConfusion h
    | some r =>
      rw [hsi] at h
      cases hxs : xstick[k]? with
      | none => rw [hxs] at h; exact Except.noConfusion h
      | some xst =>
        rw [hxs] at h
        cases hrec : barLinesH dom sX vx vy G L index col xstick (k + 1) rest with
        | error e => rw [hrec] at h; exact Except.noConfusion h
        | ok rest' =>
          rw [hrec] at h
          cases h
          cases hl with
          | head => exact ⟨rfl, rfl, rfl⟩
          | tail _ hmem => exact ih (k + 1) rest' hrec l hmem

/-- Series number `j` of the vertical outer loop gets the hue rotation for
index `k + j`, and only vertical x-axis-anchored bars. -/
theorem barGroupV_ok (dom : List String) (sY : ℚ → ℚ) (vx vy : ℚ) (G L : ℕ) (base : Color)
    (shift : ℚ) (yseries : List Series) :
    ∀ (ss : List Series) (k : ℕ) (groups : List (List SvgLine)),
      barGroupV dom sY vx vy G L base shift yseries k ss = Except.ok groups →
      ∀ (j : ℕ) (hj : j < groups.length), ∀ l ∈ groups.get ⟨j, hj⟩,
        l.stroke = Color.shift_hue_degrees_index base shift (k + j) ∧ l.x1 = l.x2 ∧ l.y1 = 0 := by
  intro ss
  induction ss with
  | nil =>
    intro k groups h j hj l hl
    simp only [barGroupV] at h
    cases h
    simp at hj
  | cons sx rest ih =>
    intro k groups h j hj l hl
    simp only [barGroupV] at h
    cases hys : yseries[k]? with
    | none => simp only [hys] at h; exact Except.noConfusion h
    | some sy =>
      simp only [hys] at h
      cases hlines : barLinesV dom sY vx vy G L k (Color.shift_hue_degrees_index base shift k)
          sy.to_stick 0 sx.to_stick with
      | error e => simp only [hlines] at h; exact Except.noConfusion h
      | ok lines =>
        simp only [hlines] at h
        cases hrec : barGroupV dom sY vx vy G L base shift yseries (k + 1) rest with
        | error e => simp only [hrec] at h; exact Except.noConfusion h
        | ok rest' =>
          simp only [hrec] at h
          cases h
          cases j with
          | zero =>
            have := barLinesV_ok dom sY vx vy G L k
              (Color.shift_hue_degrees_index base shift k) sy.to_stick sx.to_stick 0 lines hlines l hl
            simpa using this
          | succ j' =>
            have hj' : j' < rest'.length := by simpa using hj
            have := ih (k + 1) rest' hrec j' hj' l hl
            have harith : k + 1 + j' = k + (j' + 1) := by omega
            rw [harith] at this
            exact this

/-- Series number `j` of the horizontal outer loop gets the hue rotation for
index `k + j`, and only horizontal y-axis-anchored bars. -/
theorem barGroupH_ok (dom : List String) (sX : ℚ → ℚ) (vx vy : ℚ) (G L : ℕ) (base : Color)
    (shift : ℚ) (xseries : List Series) :
    ∀ (ss : List Series) (k : ℕ) (groups : List (List SvgLine)),
      barGroupH dom sX vx vy G L base shift xseries k ss = Except.ok groups →
      ∀ (j : ℕ) (hj : j < groups.length), ∀ l ∈ groups.get ⟨j, hj⟩,
        l.stroke = Color.shift_hue_degrees_index base shift (k + j) ∧ l.y1 = l.y2 ∧ l.x1 = 0 := by
  intro ss
  induction ss with
  | nil =>
    intro k groups h j hj l hl
    simp only [barGroupH] at h
    cases h
    simp at hj
  | cons sy rest ih =>
    intro k groups h j hj l hl
    simp only [barGroupH] at h
    cases hxs : xseries[k]? with
    | none => simp only [hxs] at h; exact Except.noConfusion h
    | some sx =>
      simp only [hxs] at h
      cases hlines : barLinesH dom sX vx vy G L k (Color.shift_hue_degrees_index base shift k)
          sx.to_stick 0 sy.to_stick with
      | error e => simp only [hlines] at h; exact Except.noConfusion h
      | ok lines =>
        simp only [hlines] at h
        cases hrec : barGroupH dom sX vx vy G L base shift xseries (k + 1) rest with
        | error e => simp only [hrec] at h; exact Except.noConfusion h
        | ok rest' =>
          simp only [hrec] at h
          cases h
          cases j with
          | zero =>
            have := barLinesH_ok dom sX vx vy G L k
              (Color.shift_hue_degrees_index base shift k) sx.to_stick sy.to_stick 0 lines hlines l hl
            simpa using this
          | succ j' =>
            have hj' : j' < rest'.length := by simpa using hj
            have := ih (k + 1) rest' hrec j' hj' l hl
            have harith : k + 1 + j' = k + (j' + 1) := by omega
            rw [harith] at this
            exact this

/-- The plot-point loop succeeds exactly on the zipped sticks when enough
y-sticks remain, producing the scaled points in series order. -/
theorem lcPoints_ok (xsc ysc : ℚ → ℚ) (vx vy : ℚ) (ys : List Stick) :
    ∀ (xs : List Stick) (k : ℕ), xs.length + k ≤ ys.length →
      lcPoints xsc ysc vx vy ys k xs =
        Except.ok ((xs.zip (ys.drop k)).map
          (fun p => (xsc p.1.value * vx, ysc p.2.value * vy))) := by
  intro xs
  induction xs with
  | nil => intro k hk; simp [lcPoints]
  | cons d rest ih =>
    intro k hk
    have hklt : k < ys.length := by
      simp only [List.length_cons] at hk
      omega
    have hdrop : ys.drop k = ys[k] :: ys.drop (k + 1) := List.drop_eq_getElem_cons hklt
    have hys : ys[k]? = some ys[k] := List.getElem?_eq_getElem hklt
    have hrec := ih (k + 1) (by simp only [List.length_cons] at hk; omega)
    simp only [lcPoints, hys, hrec, hdrop, List.zip_cons_cons, List.map_cons]

/-- No integer embeds in `ℚ` as three halves. -/
theorem int_cast_ne_three_halves (z : ℤ) : (z : ℚ) ≠ 3 / 2 := by
  intro h
  have h2 : ((2 * z : ℤ) : ℚ) = 3 := by push_cast; rw [h]; norm_num
  have h3 : (2 * z : ℤ) = 3 := by exact_mod_cast h2
  omega

/-- Concrete evaluation of a two-point line chart, used to instantiate the
rounding theorem. -/
theorem lineChart_eval_pair :
    renderLineChart (Cartesian.mk (Series.Numeric [0, 1]) (Series.Numeric [0, 1]) ⟨5, 5⟩ "") none =
      Except.ok (LineChartOut.mk [⟨0, 0⟩, ⟨5, 5⟩] [[(0, 0), (5, 5)]] Color.default "") := by
  norm_num [renderLineChart, lcPoints, Series.to_stick, Series.scale, Series.values,
    numericScale, listMin, listMax, roundPoint, roundHalfEven, Color.default]

/-! ## Claim theorems -/

/-- C1: for a group of `G` series over a categorical axis with `L` distinct
labels, the bar of series `i` at label rank `r` sits at
`(r/L)·extent + ((0.9/G)·i + (0.9/G)/2 + 0.05)·(extent/L)`; for a fixed
label the band centers are strictly increasing in `i`, each band lies
strictly inside the slot `[r/L, (r+1)/L]·extent`, and the bands do not
overlap. -/
theorem grouped_bar_offsets (G L : ℕ) (E : ℚ) (r : ℕ)
    (hG : 1 ≤ G) (hL : 1 ≤ L) (hE : 0 < E) (_hr : r < L) :
    (∀ i : ℕ, bandCenter G L E r i =
      ((r : ℚ) / (L : ℚ)) * E +
        ((9/10 / (G : ℚ)) * (i : ℚ) + (9/10 / (G : ℚ)) / 2 + 1/20) * (E / (L : ℚ))) ∧
    (∀ i j : ℕ, i < j → j < G → bandCenter G L E r i < bandCenter G L E r j) ∧
    (∀ i : ℕ, i < G →
      ((r : ℚ) / (L : ℚ)) * E < bandCenter G L E r i - bandHalfWidth G L E ∧
      bandCenter G L E r i + bandHalfWidth G L E < (((r : ℚ) + 1) / (L : ℚ)) * E) ∧
    (∀ i j : ℕ, i < j → j < G →
      bandCenter G L E r i + bandHalfWidth G L E ≤ bandCenter G L E r j - bandHalfWidth G L E) := by
  have hg0 : 0 < G := by omega
  have hl0 : 0 < L := by omega
  have hg : (0 : ℚ) < (G : ℚ) := by exact_mod_cast hg0
  have hl : (0 : ℚ) < (L : ℚ) := by exact_mod_cast hl0
  have hEl : 0 < E / (L : ℚ) := div_pos hE hl
  refine ⟨fun i => rfl, ?_, ?_, ?_⟩
  · intro i j hij hjG
    have hcast : (i : ℚ) < (j : ℚ) := by exact_mod_cast hij
    have key : bandCenter G L E r j - bandCenter G L E r i
        = (9/10 / (G : ℚ)) * ((j : ℚ) - (i : ℚ)) * (E / (L : ℚ)) := by
      unfold bandCenter
      ring
    have hpos : 0 < (9/10 / (G : ℚ)) * ((j : ℚ) - (i : ℚ)) * (E / (L : ℚ)) :=
      mul_pos (mul_pos (div_pos (by norm_num) hg) (sub_pos.mpr hcast)) hEl
    linarith [key, hpos]
  · intro i hiG
    constructor
    · have key : bandCenter G L E r i - bandHalfWidth G L E - ((r : ℚ) / (L : ℚ)) * E
          = ((9/10 / (G : ℚ)) * (i : ℚ) + 1/20) * (E / (L : ℚ)) := by
        unfold bandCenter bandHalfWidth
        ring
      have h1 : (0 : ℚ) < (9/10 / (G : ℚ)) * (i : ℚ) + 1/20 := by
        have := mul_nonneg (le_of_lt (div_pos (by norm_num : (0:ℚ) < 9/10) hg)) (Nat.cast_nonneg i)
        linarith
      have h2 := mul_pos h1 hEl
      linarith [key, h2]
    · have hcast : (i : ℚ) + 1 ≤ (G : ℚ) := by exact_mod_cast Nat.succ_le_of_lt hiG
      have key : (((r : ℚ) + 1) / (L : ℚ)) * E - (bandCenter G L E r i + bandHalfWidth G L E)
          = (19/20 - (9/10) * (((i : ℚ) + 1) / (G : ℚ))) * (E / (L : ℚ)) := by
        unfold bandCenter bandHalfWidth
        ring
      have hle : ((i : ℚ) + 1) / (G : ℚ) ≤ 1 := (div_le_one hg).mpr hcast
      have h1 : (1 : ℚ)/20 ≤ 19/20 - (9/10) * (((i : ℚ) + 1) / (G : ℚ)) := by nlinarith
      have h2 : 0 < (19/20 - (9/10) * (((i : ℚ) + 1) / (G : ℚ))) * (E / (L : ℚ)) :=
        mul_pos (by linarith) hEl
      linarith [key, h2]
  · intro i j hij hjG
    have hcast : (i : ℚ) + 1 ≤ (j : ℚ) := by exact_mod_cast Nat.succ_le_of_lt hij
    have key : (bandCenter G L E r j - bandHalfWidth G L E)
        - (bandCenter G L E r i + bandHalfWidth G L E)
        = (9/10 / (G : ℚ)) * ((j : ℚ) - (i : ℚ) - 1) * (E / (L : ℚ)) := by
      unfold bandCenter bandHalfWidth
      ring
    have h1 : 0 ≤ (9/10 / (G : ℚ)) * ((j : ℚ) - (i : ℚ) - 1) * (E / (L : ℚ)) :=
      mul_nonneg (mul_nonneg (le_of_lt (div_pos (by norm_num) hg)) (by linarith)) (le_of_lt hEl)
    linarith [key, h1]

/-- Witness for C1 at the group size 2, label count 3, extent 30, rank 1. -/
theorem grouped_bar_offsets_witness :
    bandCenter 2 3 30 1 0 < bandCenter 2 3 30 1 1 ∧
    (((1 : ℕ) : ℚ) / ((3 : ℕ) : ℚ)) * 30 < bandCenter 2 3 30 1 0 - bandHalfWidth 2 3 30 ∧
    bandCenter 2 3 30 1 1 + bandHalfWidth 2 3 30 < ((((1 : ℕ) : ℚ) + 1) / ((3 : ℕ) : ℚ)) * 30 ∧
    bandCenter 2 3 30 1 0 + bandHalfWidth 2 3 30 ≤ bandCenter 2 3 30 1 1 - bandHalfWidth 2 3 30 := by
  obtain ⟨hform, hmono, hin, hsep⟩ :=
    grouped_bar_offsets 2 3 30 1 (by decide) (by decide) (by decide) (by decide)
  exact ⟨hmono 0 1 (by decide) (by decide), (hin 0 (by decide)).1, (hin 1 (by decide)).2,
    hsep 0 1 (by decide) (by decide)⟩

/-- C7: the numeric scale fitted to data with `min < max` maps `v` to
`(v - min)/(max - min)` clamped to `[0, 1]`, sends `min` to 0 and `max`
to 1, stays inside `[0, 1]` everywhere, and collapses to `1/2` for every
input when `min = max`. -/
theorem numeric_scale_spec (l : List ℚ) (v : ℚ) :
    (listMin l < listMax l →
      (Series.Numeric l).scale v = max 0 (min 1 ((v - listMin l) / (listMax l - listMin l))) ∧
      (Series.Numeric l).scale (listMin l) = 0 ∧
      (Series.Numeric l).scale (listMax l) = 1 ∧
      0 ≤ (Series.Numeric l).scale v ∧ (Series.Numeric l).scale v ≤ 1) ∧
    (listMin l = listMax l → (Series.Numeric l).scale v = 1/2) := by
  constructor
  · intro hlt
    have hne : listMin l ≠ listMax l := ne_of_lt hlt
    have hsub : listMax l - listMin l ≠ 0 := sub_ne_zero.mpr (ne_of_gt hlt)
    simp only [Series.scale, values_numeric, numericScale, if_neg hne]
    refine ⟨trivial, ?_, ?_, le_max_left _ _, ?_⟩
    · rw [sub_self, zero_div]
      norm_num
    · rw [div_self hsub]
      norm_num
    · exact max_le (by norm_num) (min_le_left _ _)
  · intro heq
    simp only [Series.scale, values_numeric, numericScale, if_pos heq]

/-- Witness for C7 on the data `[0, 2]` (and `[2, 2]` for the degenerate
domain). -/
theorem numeric_scale_spec_witness :
    (Series.Numeric [0, 2]).scale (listMin [0, 2]) = 0 ∧
    (Series.Numeric [0, 2]).scale (listMax [0, 2]) = 1 ∧
    (Series.Numeric [2, 2]).scale 7 = 1/2 :=
  ⟨((numeric_scale_spec [0, 2] 7).1 (by decide)).2.1,
   ((numeric_scale_spec [0, 2] 7).1 (by decide)).2.2.1,
   (numeric_scale_spec [2, 2] 7).2 (by decide)⟩

/-- C9: omitting the optional props is the same as passing the default base
color to both components and 70 degrees to the group's hue shift. -/
theorem default_props :
    (∀ chart : Cartesian, renderLineChart chart none = renderLineChart chart (some Color.default)) ∧
    (∀ chart : CartesianGroup,
      renderBarChartGroup chart none none = renderBarChartGroup chart (some Color.default) (some 70)) :=
  ⟨fun _ => rfl, fun _ => rfl⟩

/-- C8: hue rotation adds `(shift_degrees × index) mod 360` to the hue,
preserving saturation and lightness; index 0 returns the base color
unchanged; a rotation that is 0 mod 360 keeps the hue; and series number
`j` of a `BarChartGroup` is stroked with the rotation at index `j` of the
resolved base color. -/
theorem hue_rotation_spec :
    (∀ (c : Color) (d : ℚ), 0 ≤ c.hue → c.hue < 360 → c.shift_hue_degrees_index d 0 = c) ∧
    (∀ (c : Color) (d : ℚ) (i : ℕ), 0 ≤ c.hue → c.hue < 360 →
      qmod (d * (i : ℚ)) 360 = 0 → (c.shift_hue_degrees_index d i).hue = c.hue) ∧
    (∀ (c : Color) (d : ℚ) (i : ℕ),
      (c.shift_hue_degrees_index d i).saturation = c.saturation ∧
      (c.shift_hue_degrees_index d i).lightness = c.lightness) ∧
    (∀ (chart : CartesianGroup) (c : Option Color) (s : Option ℚ) (out : List (List SvgLine)),
      renderBarChartGroup chart c s = Except.ok out →
      ∀ (j : ℕ) (hj : j < out.length), ∀ l ∈ out.get ⟨j, hj⟩,
        l.stroke = Color.shift_hue_degrees_index (c.getD Color.default) (s.getD 70) j) := by
  refine ⟨?_, ?_, ?_, ?_⟩
  · intro c d h0 h1
    simp only [Color.shift_hue_degrees_index, Nat.cast_zero, mul_zero, add_zero,
      qmod_eq_self h0 h1]
  · intro c d i h0 h1 hq
    have hk : d * (i : ℚ) = 360 * ((⌊d * (i : ℚ) / 360⌋ : ℤ) : ℚ) := by
      unfold qmod at hq
      linarith
    calc (c.shift_hue_degrees_index d i).hue
        = qmod (c.hue + d * (i : ℚ)) 360 := rfl
      _ = qmod (c.hue + 360 * ((⌊d * (i : ℚ) / 360⌋ : ℤ) : ℚ)) 360 := by rw [← hk]
      _ = qmod c.hue 360 := qmod_add_int_mul _ _
      _ = c.hue := qmod_eq_self h0 h1
  · intro c d i
    exact ⟨rfl, rfl⟩
  · intro chart c s out hok j hj l hl
    cases hd : chart.data with
    | nil =>
      simp only [renderBarChartGroup, hd, List.map_nil] at hok
      exact Except.noConfusion hok
    | cons p ps =>
      simp only [renderBarChartGroup, hd, List.map_cons] at hok
      cases hlab : p.1.is_label with
      | true =>
        simp only [hlab, Bool.cond_true] at hok
        have := barGroupV_ok _ _ _ _ _ _ _ _ _ _ 0 out hok j hj l hl
        simpa using this.1
      | false =>
        simp only [hlab, Bool.cond_false] at hok
        have := barGroupH_ok _ _ _ _ _ _ _ _ _ _ 0 out hok j hj l hl
        simpa using this.1

/-- Witness for C8: a concrete base color, rotation angles 70 and 0, and
the single bar of a one-series one-label group. -/
theorem hue_rotation_spec_witness :
    (Color.mk 10 1 1).shift_hue_degrees_index 70 0 = Color.mk 10 1 1 ∧
    ((Color.mk 10 1 1).shift_hue_degrees_index 0 5).hue = 10 ∧
    ((Color.mk 10 1 1).shift_hue_degrees_index 70 3).saturation = 1 ∧
    (SvgLine.mk (bandCenter 1 1 10 0 0) 0 (bandCenter 1 1 10 0 0)
        (groupNumericScale [Series.Numeric [1]] 1 * 10)
        (Color.shift_hue_degrees_index Color.default 70 0)).stroke =
      Color.shift_hue_degrees_index Color.default 70 0 :=
  ⟨hue_rotation_spec.1 (Color.mk 10 1 1) 70 (by decide) (by decide),
   hue_rotation_spec.2.1 (Color.mk 10 1 1) 0 5 (by decide) (by decide) (by simp [qmod]),
   (hue_rotation_spec.2.2.1 (Color.mk 10 1 1) 70 3).1,
   hue_rotation_spec.2.2.2 (CartesianGroup.mk [(Series.Label ["A"], Series.Numeric [1])] ⟨10, 10⟩ "")
     none none _ rfl 0 (by decide) _ (List.Mem.head _)⟩

/-- C2 (amended): `LineChart` checks `get_error()` before drawing and, on a
non-empty error, renders an empty canvas and forwards the message to the
logging channel; `BarChartGroup` never reads `get_error()` — its rendering
is unchanged by the recorded error string. -/
theorem get_error_handling :
    (∀ (cart : Cartesian) (c : Option Color), cart.error ≠ "" →
      renderLineChart cart c =
        Except.ok (LineChartOut.mk [] [] (c.getD Color.default) cart.error)) ∧
    (∀ (d : List (Series × Series)) (v : CView) (e : String) (c : Option Color) (s : Option ℚ),
      renderBarChartGroup (CartesianGroup.mk d v e) c s =
        renderBarChartGroup (CartesianGroup.mk d v "") c s) := by
  constructor
  · intro cart c hne
    simp only [renderLineChart, if_neg hne]
  · intro d v e c s
    rfl

/-- Witness for C2's amended statement: an errored Cartesian chart renders
empty and logs, and the group renderer is oblivious to the error field. -/
theorem get_error_handling_witness :
    renderLineChart (Cartesian.mk (Series.Numeric []) (Series.Numeric []) ⟨1, 1⟩ "err") none =
      Except.ok (LineChartOut.mk [] [] Color.default "err") ∧
    renderBarChartGroup (CartesianGroup.mk [] ⟨1, 1⟩ "err") none none =
      renderBarChartGroup (CartesianGroup.mk [] ⟨1, 1⟩ "") none none :=
  ⟨get_error_handling.1 (Cartesian.mk (Series.Numeric []) (Series.Numeric []) ⟨1, 1⟩ "err") none
      (by decide),
   get_error_handling.2 [] ⟨1, 1⟩ "err" none none⟩

/-- C2 counterexample: a `BarChartGroup` whose chart carries the non-empty
error "boom" still draws a non-empty canvas — the component does not check
`get_error()`. -/
theorem get_error_ignored_cex :
    (CartesianGroup.mk [(Series.Label ["A"], Series.Numeric [1])] ⟨10, 10⟩ "boom").error ≠ "" ∧
    renderBarChartGroup (CartesianGroup.mk [(Series.Label ["A"], Series.Numeric [1])] ⟨10, 10⟩ "boom")
      none none ≠ Except.ok [] ∧
    (renderBarChartGroup (CartesianGroup.mk [(Series.Label ["A"], Series.Numeric [1])] ⟨10, 10⟩ "boom")
      none none).isOk = true :=
  ⟨by decide, by decide, by decide⟩

/-- C3: a mismatched-length `Cartesian` records a non-empty error and
`LineChart` renders an empty logged canvas; but a mismatched-length
`BarChartGroup` hits the `ystick[indexi]` index-out-of-bounds panic of
barchart_group/components.rs line 189 instead of rendering empty. -/
theorem mismatched_lengths_eval :
    (mkCartesian (Series.Numeric [1, 2, 3]) (Series.Numeric [1, 2]) ⟨10, 10⟩).error ≠ "" ∧
    renderLineChart (mkCartesian (Series.Numeric [1, 2, 3]) (Series.Numeric [1, 2]) ⟨10, 10⟩) none =
      Except.ok (LineChartOut.mk [] [] Color.default
        (mkCartesian (Series.Numeric [1, 2, 3]) (Series.Numeric [1, 2]) ⟨10, 10⟩).error) ∧
    (mkCartesianGroup [(Series.Label ["A", "B", "C"], Series.Numeric [3/10, 1/2])] ⟨10, 10⟩).error ≠ "" ∧
    renderBarChartGroup
      (mkCartesianGroup [(Series.Label ["A", "B", "C"], Series.Numeric [3/10, 1/2])] ⟨10, 10⟩)
      none none = Except.error RenderPanic.indexOutOfBounds :=
  ⟨by decide, by decide, by decide, by decide⟩

/-- C4: `BarChartGroup` rendering is not total — the empty group panics at
the `xseries[0]` indexing of barchart_group/components.rs line 116, and a
mismatched-length pair panics at the `ystick[indexi]` indexing of line
189. -/
theorem barchart_group_panics_eval :
    renderBarChartGroup (CartesianGroup.mk [] ⟨10, 10⟩ "") none none =
      Except.error RenderPanic.indexOutOfBounds ∧
    renderBarChartGroup
      (CartesianGroup.mk [(Series.Label ["A", "B"], Series.Numeric [1])] ⟨10, 10⟩ "") none none =
      Except.error RenderPanic.indexOutOfBounds :=
  ⟨by decide, by decide⟩

/-- C5 (amended): for an error-free `Cartesian` chart, `LineChart` plots at
each index the point `(x_scale(xstick_i) · vx, y_scale(ystick_i) · vy)`,
puts one circle marker at each such point, and emits exactly one path whose
vertices are those points rounded to whole pixels, in the original series
order with no reordering. -/
theorem lineChart_points (x y : Series) (v : CView) (c : Option Color)
    (h : x.len = y.len) :
    renderLineChart (mkCartesian x y v) c = Except.ok
      (LineChartOut.mk
        ((x.to_stick.zip y.to_stick).map
          (fun p => SvgCircle.mk (x.scale p.1.value * v.vx) (y.scale p.2.value * v.vy)))
        [(x.to_stick.zip y.to_stick).map
          (fun p => roundPoint (x.scale p.1.value * v.vx, y.scale p.2.value * v.vy))]
        (c.getD Color.default) "") := by
  have herr : (mkCartesian x y v).error = "" := by
    simp [mkCartesian, h]
  have hlen : x.to_stick.length + 0 ≤ y.to_stick.length := by
    have hl := h
    simp only [Series.len] at hl
    omega
  have hpts := lcPoints_ok x.scale y.scale v.vx v.vy y.to_stick x.to_stick 0 hlen
  simp only [renderLineChart, if_pos herr]
  have hax : (mkCartesian x y v).ax = x := rfl
  have hay : (mkCartesian x y v).ay = y := rfl
  have hv : (mkCartesian x y v).view = v := rfl
  rw [hax, hay, hv, hpts]
  simp only [List.drop_zero, List.map_map, Except.ok.injEq]
  rfl

/-- Witness for C5's amended statement at a two-point numeric chart. -/
theorem lineChart_points_witness :
    renderLineChart (mkCartesian (Series.Numeric [1, 2]) (Series.Numeric [1, 2]) ⟨1, 1⟩) none =
      Except.ok
        (LineChartOut.mk
          (((Series.Numeric [1, 2]).to_stick.zip (Series.Numeric [1, 2]).to_stick).map
            (fun p => SvgCircle.mk ((Series.Numeric [1, 2]).scale p.1.value * (CView.mk 1 1).vx)
              ((Series.Numeric [1, 2]).scale p.2.value * (CView.mk 1 1).vy)))
          [((Series.Numeric [1, 2]).to_stick.zip (Series.Numeric [1, 2]).to_stick).map
            (fun p => roundPoint ((Series.Numeric [1, 2]).scale p.1.value * (CView.mk 1 1).vx,
              (Series.Numeric [1, 2]).scale p.2.value * (CView.mk 1 1).vy))]
          Color.default "") :=
  lineChart_points (Series.Numeric [1, 2]) (Series.Numeric [1, 2]) ⟨1, 1⟩ none (by decide)

/-- C5 counterexample: for this chart the plot point at index 1 is
`(3/2, 3/2)`, but the emitted path's vertex at index 1 is the rounded
`(2, 2)` — the path is not the polyline through the exact points. -/
theorem lineChart_exact_path_cex :
    renderLineChart (Cartesian.mk (Series.Numeric [0, 1, 2]) (Series.Numeric [0, 1, 2]) ⟨3, 3⟩ "") none =
      Except.ok (LineChartOut.mk [⟨0, 0⟩, ⟨3/2, 3/2⟩, ⟨3, 3⟩] [[(0, 0), (2, 2), (3, 3)]]
        Color.default "") ∧
    ((2 : ℚ), (2 : ℚ)) ≠ ((3 : ℚ)/2, (3 : ℚ)/2) := by
  constructor
  · norm_num [renderLineChart, lcPoints, Series.to_stick, Series.scale, Series.values,
      numericScale, listMin, listMax, roundPoint, roundHalfEven, Color.default]
  · norm_num [Prod.ext_iff]

/-- C6: `BarChartGroup` selects its layout from the variant of the first
pair's x-series: when it is label-typed every emitted bar is a vertical
segment anchored on the x-axis, otherwise every emitted bar is a
horizontal segment anchored on the y-axis. -/
theorem layout_dispatch (chart : CartesianGroup) (c : Option Color) (s : Option ℚ)
    (out : List (List SvgLine)) (x0 : Series)
    (h0 : (chart.data.map Prod.fst).head? = some x0)
    (hok : renderBarChartGroup chart c s = Except.ok out) :
    (x0.is_label = true → ∀ g ∈ out, ∀ l ∈ g, l.x1 = l.x2 ∧ l.y1 = 0) ∧
    (x0.is_label = false → ∀ g ∈ out, ∀ l ∈ g, l.y1 = l.y2 ∧ l.x1 = 0) := by
  cases hd : chart.data with
  | nil =>
    rw [hd] at h0
    simp at h0
  | cons p ps =>
    rw [hd] at h0
    simp only [List.map_cons, List.head?_cons, Option.some.injEq] at h0
    subst h0
    simp only [renderBarChartGroup, hd, List.map_cons] at hok
    constructor
    · intro hlab g hg l hl
      rw [hlab] at hok
      simp only [Bool.cond_true] at hok
      obtain ⟨n, hn⟩ := List.mem_iff_get.mp hg
      have hm : l ∈ out.get ⟨n.1, n.2⟩ := hn.symm ▸ hl
      have := barGroupV_ok _ _ _ _ _ _ _ _ _ _ 0 out hok n.1 n.2 l hm
      exact ⟨this.2.1, this.2.2⟩
    · intro hlab g hg l hl
      rw [hlab] at hok
      simp only [Bool.cond_false] at hok
      obtain ⟨n, hn⟩ := List.mem_iff_get.mp hg
      have hm : l ∈ out.get ⟨n.1, n.2⟩ := hn.symm ▸ hl
      have := barGroupH_ok _ _ _ _ _ _ _ _ _ _ 0 out hok n.1 n.2 l hm
      exact ⟨this.2.1, this.2.2⟩

/-- Witness for C6: a one-pair group with a numeric x-series draws a
horizontal y-axis-anchored bar. -/
theorem layout_dispatch_witness :
    (SvgLine.mk 0 (bandCenter 1 1 10 0 0) (groupNumericScale [Series.Numeric [1]] 1 * 10)
        (bandCenter 1 1 10 0 0) (Color.shift_hue_degrees_index Color.default 70 0)).y1 =
      (SvgLine.mk 0 (bandCenter 1 1 10 0 0) (groupNumericScale [Series.Numeric [1]] 1 * 10)
        (bandCenter 1 1 10 0 0) (Color.shift_hue_degrees_index Color.default 70 0)).y2 ∧
    (SvgLine.mk 0 (bandCenter 1 1 10 0 0) (groupNumericScale [Series.Numeric [1]] 1 * 10)
        (bandCenter 1 1 10 0 0) (Color.shift_hue_degrees_index Color.default 70 0)).x1 = 0 :=
  (layout_dispatch (CartesianGroup.mk [(Series.Numeric [1], Series.Label ["A"])] ⟨10, 10⟩ "")
      none none _ (Series.Numeric [1]) rfl rfl).2 rfl _ (List.Mem.head _) _ (List.Mem.head _)

/-- C10: every vertex of the emitted polyline is the plot point rounded to
zero decimal places while the circle marker keeps the exact coordinates,
so wherever a scaled coordinate is not an integer the vertex differs from
the marker center. -/
theorem lineChart_rounding (chart : Cartesian) (c : Option Color) (out : LineChartOut)
    (hok : renderLineChart chart c = Except.ok out) (herr : chart.error = "") :
    out.paths = [out.circles.map (fun p => roundPoint (p.cx, p.cy))] ∧
    ∀ q : ℚ, (∀ z : ℤ, (z : ℚ) ≠ q) → ((roundHalfEven q : ℤ) : ℚ) ≠ q := by
  constructor
  · simp only [renderLineChart, if_pos herr] at hok
    cases hpts : lcPoints chart.ax.scale chart.ay.scale chart.view.vx chart.view.vy
        chart.ay.to_stick 0 chart.ax.to_stick with
    | error e => rw [hpts] at hok; exact Except.noConfusion hok
    | ok pts =>
      rw [hpts] at hok
      cases hok
      simp only [List.map_map]
      have hfun : ((fun p : SvgCircle => roundPoint (p.cx, p.cy)) ∘
          fun p : ℚ × ℚ => SvgCircle.mk p.1 p.2) = roundPoint := by
        funext p
        rfl
      rw [hfun]
  · intro q hq
    exact hq _

/-- Witness for C10 at the two-point chart of `lineChart_eval_pair` and the
non-integral coordinate `3/2`. -/
theorem lineChart_rounding_witness :
    (LineChartOut.mk [⟨0, 0⟩, ⟨5, 5⟩] [[(0, 0), (5, 5)]] Color.default "").paths =
      [(LineChartOut.mk [⟨0, 0⟩, ⟨5, 5⟩] [[(0, 0), (5, 5)]] Color.default "").circles.map
        (fun p => roundPoint (p.cx, p.cy))] ∧
    ((roundHalfEven (3/2) : ℤ) : ℚ) ≠ 3/2 := by
  have h := lineChart_rounding _ none _ lineChart_eval_pair rfl
  exact ⟨h.1, h.2 (3/2) int_cast_ne_three_halves⟩
